import Mathlib

set_option maxHeartbeats 1000000

/-!
Shallow embedding of the two tools of this repository:
`mongo_copy_tool_v2.py` (bulk copy engine, metadata replicator, index
reconciler, change-feed applier) and `mongo_diff_tool.py` (diff/validation
engine).  Pure document-level logic is translated function by function;
the document store itself (the external endpoint of §6 of the spec) is
modelled as explicit state together with the store-level operations the
tools invoke on it.
-/

/-! ## Values and documents

A BSON-like value as the Python tools see it: scalars, an explicit null
(`None`), the not-a-number marker (only its identity matters to the tools,
through `math.isnan` and Python `==`), embedded documents (insertion-ordered
key/value sequences, i.e. Python dicts) and arrays.  Non-NaN doubles such as
the `1.0` in a server status document are modelled as their integer value.
`Fields` and `Items` are inlined lists so that all recursion over values is
structural. -/

mutual
inductive Value where
  | vnull : Value
  | vnan : Value
  | vbool (b : Bool) : Value
  | vint (n : Int) : Value
  | vstr (s : String) : Value
  | vdict (fields : Fields) : Value
  | varr (items : Items) : Value
deriving DecidableEq

inductive Fields where
  | fnil : Fields
  | fcons (key : String) (val : Value) (tail : Fields) : Fields
deriving DecidableEq

inductive Items where
  | inil : Items
  | icons (head : Value) (tail : Items) : Items
deriving DecidableEq
end

/-- Python dict lookup (`d[k]`, `d.get(k)`): the entry with the key
(a Python dict holds each key at most once). -/
def flookup (k : String) : Fields → Option Value
  | .fnil => none
  | .fcons k2 v t => if k2 = k then some v else flookup k t

/-- Python `k in d` on a dict. -/
def fHasKey (k : String) (d : Fields) : Bool :=
  (flookup k d).isSome

/-- The entries of a dict, in insertion order. -/
def fentries : Fields → List (String × Value)
  | .fnil => []
  | .fcons k v t => (k, v) :: fentries t

/-- The keys of a dict, in insertion order. -/
def fkeys (d : Fields) : List String :=
  (fentries d).map Prod.fst

/-- Python `len(d)` of a dict is zero / `if d:` is false. -/
def fisEmpty : Fields → Bool
  | .fnil => true
  | .fcons _ _ _ => false

/-- Removing a key from a dict (`d.pop(k)`, the `$unset` operator). -/
def ferase (k : String) : Fields → Fields
  | .fnil => .fnil
  | .fcons k2 v t => if k2 = k then ferase k t else .fcons k2 v (ferase k t)

/-- Setting a key of a dict (`d[k] = v`, the `$set` operator): an existing
field is overwritten in place, a new field is appended at the end. -/
def fsetField (doc : Fields) (k : String) (v : Value) : Fields :=
  match doc with
  | .fnil => .fcons k v .fnil
  | .fcons k2 w t => if k2 = k then .fcons k2 v t else .fcons k2 w (fsetField t k v)

/-- Python `len` of an array. -/
def ilen : Items → Nat
  | .inil => 0
  | .icons _ t => 1 + ilen t

/-- Association-list lookup for store-level tables keyed by strings
(collection names, index names). -/
def alookup {β : Type} (k : String) : List (String × β) → Option β
  | [] => none
  | p :: t => if p.1 = k then some p.2 else alookup k t

/-! ## Python semantics helpers -/

/-!
Python `==` between two document values, as it behaves on values coming
out of two different fetched documents: structural comparison, except that
NaN compares unequal to everything (including NaN) and Python booleans
compare equal to their integer value.
-/
mutual
def pyEq : Value → Value → Bool
  | .vnan, _ => false
  | _, .vnan => false
  | .vnull, .vnull => true
  | .vbool a, .vbool b => a == b
  | .vbool a, .vint n => (if a then (1 : Int) else 0) == n
  | .vint n, .vbool b => n == (if b then (1 : Int) else 0)
  | .vint n, .vint m => n == m
  | .vstr s, .vstr t => s == t
  | .vdict d1, .vdict d2 => pyEqFields d1 d2
  | .varr l1, .varr l2 => pyEqItems l1 l2
  | _, _ => false

def pyEqFields : Fields → Fields → Bool
  | .fnil, .fnil => true
  | .fcons k1 v1 t1, .fcons k2 v2 t2 => k1 == k2 && pyEq v1 v2 && pyEqFields t1 t2
  | _, _ => false

def pyEqItems : Items → Items → Bool
  | .inil, .inil => true
  | .icons a t1, .icons b t2 => pyEq a b && pyEqItems t1 t2
  | _, _ => false
end

/-- Python truthiness of a value (`if x:`). -/
def pyTruthy : Value → Bool
  | .vnull => false
  | .vnan => true
  | .vbool b => b
  | .vint n => !(n == 0)
  | .vstr s => !s.isEmpty
  | .vdict d => !(fisEmpty d)
  | .varr l => !(l == .inil)

/-- Python truthiness of `d.get(k)` (missing key gives `None`, falsy). -/
def truthy : Option Value → Bool
  | none => false
  | some v => pyTruthy v

/-- The source's `is_nan_or_none`: `value is None or (isinstance(value,
float) and math.isnan(value))`. -/
def is_nan_or_none : Value → Bool
  | .vnull => true
  | .vnan => true
  | _ => false

/-! No value at any nesting depth is the not-a-number marker. -/
mutual
def nanFree : Value → Bool
  | .vnan => false
  | .vdict d => nanFreeFields d
  | .varr l => nanFreeItems l
  | _ => true
def nanFreeFields : Fields → Bool
  | .fnil => true
  | .fcons _ v t => nanFree v && nanFreeFields t
def nanFreeItems : Items → Bool
  | .inil => true
  | .icons v t => nanFree v && nanFreeItems t
end

/-- The keys of a dict are pairwise distinct (true of every Python dict;
the embedding's `Fields` type is wider). -/
def fkeysNodup : Fields → Bool
  | .fnil => true
  | .fcons k _ t => !(fHasKey k t) && fkeysNodup t

/-! Every dict at any nesting depth has pairwise-distinct keys. -/
mutual
def nodupKeys : Value → Bool
  | .vdict d => nodupKeysFields d
  | .varr l => nodupKeysItems l
  | _ => true
def nodupKeysFields : Fields → Bool
  | .fnil => true
  | .fcons k v t => !(fHasKey k t) && nodupKeys v && nodupKeysFields t
def nodupKeysItems : Items → Bool
  | .inil => true
  | .icons v t => nodupKeys v && nodupKeysItems t
end

/-! ## Diff/Validation Engine (`mongo_diff_tool.py`) -/

/-- One nested difference record produced by `compare_nested_fields`
(the source renders each as a human-readable string; the constructor
carries the data the string names). -/
inductive NDiff where
  | missingSecond (key : String) : NDiff
  | missingFirst (key : String) : NDiff
  | arrayLen (len1 len2 : Nat) : NDiff
  | valuesDiffer (v1 v2 : Value) : NDiff
deriving DecidableEq

/-- Second loop of the dict branch of `compare_nested_fields`: every key of
`value2` that is absent from `value1` is reported missing in the first
nested document. -/
def cnfSecondMissing (d1 : Fields) : Fields → List NDiff
  | .fnil => []
  | .fcons k _ t =>
      (if fHasKey k d1 then [] else [NDiff.missingFirst k]) ++ cnfSecondMissing d1 t

/-!
`compare_nested_fields(value1, value2)`: two dicts are compared key by key
(each side's keys missing from the other are reported), two arrays are
compared element by element after a length check, and any other pair falls
through to Python `!=`.  There is no null/NaN check at this level.
`cnfOwn` is the first dict loop (over `value1`), `cnfItems` the `zip` loop.
-/
mutual
def compare_nested_fields : Value → Value → List NDiff
  | .vdict d1, .vdict d2 => cnfOwn d1 d2 ++ cnfSecondMissing d1 d2
  | .varr l1, .varr l2 =>
      if ilen l1 ≠ ilen l2 then [NDiff.arrayLen (ilen l1) (ilen l2)]
      else cnfItems l1 l2
  | v1, v2 => if pyEq v1 v2 then [] else [NDiff.valuesDiffer v1 v2]

def cnfOwn : Fields → Fields → List NDiff
  | .fnil, _ => []
  | .fcons k x t, d2 =>
      (match flookup k d2 with
       | some y => compare_nested_fields x y
       | none => [NDiff.missingSecond k]) ++ cnfOwn t d2

def cnfItems : Items → Items → List NDiff
  | .icons a t1, .icons b t2 => compare_nested_fields a b ++ cnfItems t1 t2
  | _, _ => []
end

/-- One difference record produced by `compare_fields` for a document pair. -/
inductive Diff where
  | missingInDoc2 (key : String) : Diff
  | missingInDoc1 (key : String) : Diff
  | fieldDiff (key : String) (nested : List NDiff) : Diff
deriving DecidableEq

/-- The field name a difference record is about. -/
def Diff.field : Diff → String
  | .missingInDoc2 k => k
  | .missingInDoc1 k => k
  | .fieldDiff k _ => k

/-- Per-field body of the first loop of `compare_fields`: report the field
missing in `doc2`, or skip it when both values are null-or-NaN, or compare
the two values with `compare_nested_fields` and report the nested
differences when there are any. -/
def cfEntry (k : String) (v1 : Value) (doc2 : Fields) : List Diff :=
  match flookup k doc2 with
  | none => [Diff.missingInDoc2 k]
  | some v2 =>
    if is_nan_or_none v1 && is_nan_or_none v2 then []
    else
      let nds := compare_nested_fields v1 v2
      if nds.isEmpty then [] else [Diff.fieldDiff k nds]

/-- First loop of `compare_fields`, over the fields of `doc1`. -/
def cfOwn : Fields → Fields → List Diff
  | .fnil, _ => []
  | .fcons k v1 t, doc2 => cfEntry k v1 doc2 ++ cfOwn t doc2

/-- Second loop of `compare_fields`: fields of `doc2` absent from `doc1`. -/
def cfSecond (doc1 : Fields) : Fields → List Diff
  | .fnil => []
  | .fcons k _ t =>
      (if fHasKey k doc1 then [] else [Diff.missingInDoc1 k]) ++ cfSecond doc1 t

/-- `compare_fields(doc1, doc2)` from the diff tool. -/
def compare_fields (doc1 doc2 : Fields) : List Diff :=
  cfOwn doc1 doc2 ++ cfSecond doc1 doc2

/-- One per-document finding of `compare_collections`. -/
inductive DocDiff where
  | missingDoc (id : Value) : DocDiff
  | docDiffs (id : Value) (diffs : List Diff) : DocDiff
deriving DecidableEq

/-- The `_id` of a document (`doc['_id']`; every stored document carries
`_id`, a missing one would raise `KeyError` in the source). -/
def docId (d : Fields) : Value :=
  (flookup "_id" d).getD .vnull

/-- Insertion into a Python dict keyed by document id: a later document with
the same id overwrites the earlier one. -/
def dictInsert (key : Value) (d : Fields) (m : List (Value × Fields)) : List (Value × Fields) :=
  if m.any (fun p => decide (p.1 = key)) then
    m.map (fun p => if p.1 = key then (key, d) else p)
  else m ++ [(key, d)]

/-- Lookup in the id-keyed dict built by `compare_collections`. -/
def vlookup (key : Value) : List (Value × Fields) → Option Fields
  | [] => none
  | p :: t => if p.1 = key then some p.2 else vlookup key t

/-- `compare_collections(docs1, docs2)`: build a dict of the second
collection's documents keyed by `_id`, then for each first-side document
report it missing or report its field differences when there are any. -/
def compare_collections (docs1 docs2 : List Fields) : List DocDiff :=
  let dict2 := docs2.foldl (fun m d => dictInsert (docId d) d m) []
  (docs1.map (fun d1 =>
    match vlookup (docId d1) dict2 with
    | none => [DocDiff.missingDoc (docId d1)]
    | some d2 =>
        let fds := compare_fields d1 d2
        if fds.isEmpty then [] else [DocDiff.docDiffs (docId d1) fds])).flatten

/-- The grouping key each document contributes to the duplicate check's
aggregation: the value of the unique field, a missing field grouping (as in
the store's `$group`) under null. -/
def groupKeys (docs : List Fields) (unique_field : String) : List Value :=
  docs.map (fun d => (flookup unique_field d).getD .vnull)

/-- The distinct values of a key list (the store's `$group` produces one
group per distinct key; groups are unordered on the wire, modelled here in
a deterministic order). -/
def dedupVals : List Value → List Value
  | [] => []
  | v :: t => if v ∈ t then dedupVals t else v :: dedupVals t

/-- Number of occurrences of a value in a key list (the `$sum: 1`
accumulator of the duplicate-check pipeline). -/
def countVal (v : Value) (l : List Value) : Nat :=
  (l.filter (fun w => decide (w = v))).length

/-- `check_for_duplicates(db, collection, unique_field)`: the
`$group`-by-field / `$match count > 1` pipeline, returning each duplicated
value with its occurrence count. -/
def check_for_duplicates (docs : List Fields) (unique_field : String) : List (Value × Nat) :=
  let keys := groupKeys docs unique_field
  ((dedupVals keys).map (fun v => (v, countVal v keys))).filter (fun p => decide (1 < p.2))

/-- One observable action of a `compare_all_collections` run, in order. -/
inductive ValAction where
  | countMismatch (coll : String) (c1 c2 : Nat) : ValAction
  | indexCheck (coll : String) : ValAction
  | docCompare (coll : String) (diffs : List DocDiff) : ValAction
  | dupCheck (side : Nat) (coll : String) (found : List (Value × Nat)) : ValAction
deriving DecidableEq

/-- Whether an action is a duplicate check. -/
def ValAction.isDupCheck : ValAction → Bool
  | .dupCheck _ _ _ => true
  | _ => false

/-- A database, as the diff tool sees it: named collections of documents. -/
abbrev Database := List (String × List Fields)

/-- The documents of a named collection. -/
def getColl (name : String) (db : Database) : List Fields :=
  (alookup name db).getD []

/-- `compare_all_collections(db1, db2)`: for each collection name present on
both sides (the source iterates a Python set intersection, whose order is
unspecified; modelled in first-database order), compare document counts and
`continue` on a mismatch; otherwise compare indexes, compare the fetched
document sets, and run the duplicate check on both collections. -/
def compare_all_collections (db1 db2 : Database) : List ValAction :=
  let common := (db1.map Prod.fst).filter (fun n => (db2.map Prod.fst).contains n)
  (common.map (fun n =>
    let docs1 := getColl n db1
    let docs2 := getColl n db2
    if docs1.length ≠ docs2.length then
      [ValAction.countMismatch n docs1.length docs2.length]
    else
      [ValAction.indexCheck n,
       ValAction.docCompare n (compare_collections docs1 docs2),
       ValAction.dupCheck 1 n (check_for_duplicates docs1 "_id"),
       ValAction.dupCheck 2 n (check_for_duplicates docs2 "_id")])).flatten

/-! ## Copy tool (`mongo_copy_tool_v2.py`) -/

/-- A direction/type token of an index key entry as `index_information()`
yields it: a number (ascending `1`, descending `-1`; a double `1.0` is
modelled as its integer value) or a string (`2d`, `2dsphere`, `text`,
`hashed`, or anything else). -/
inductive IndexTok where
  | num (n : Int) : IndexTok
  | str (s : String) : IndexTok
deriving DecidableEq

/-- One index's metadata as `index_information()` yields it: the ordered
key specification under `'key'`, the transport-only `'ns'` entry when the
server sends one, and the remaining entries (`v`, `unique`, `sparse`,
TTL, partial-filter expression, ...) kept verbatim. -/
structure IndexInfo where
  key : List (String × IndexTok)
  ns : Option String
  options : Fields
deriving DecidableEq

/-- The valid MongoDB index specifiers of the source's validation list
`[1, -1, '2d', '2dsphere', 'text', 'hashed']`. -/
def allowed_index_tokens : List IndexTok :=
  [.num 1, .num (-1), .str "2d", .str "2dsphere", .str "text", .str "hashed"]

/-- The key-validation loop of `copy_indexes_if_not_exists`: every
`(field, value)` entry of the key specification must carry an allowed
specifier (the source breaks out at the first invalid one; the net effect
on the issued operations is the same). -/
def valid_index_key (key : List (String × IndexTok)) : Bool :=
  key.all (fun p => decide (p.2 ∈ allowed_index_tokens))

/-- The per-index body of `copy_indexes_if_not_exists` for one source index:
drop `ns` from both sides, do nothing when the target's same-named index is
identical, otherwise validate the key specification and create the index
(exact key list, remaining options verbatim) only when every specifier is
valid.  The result is the list of issued create-index calls
(key specification, options). -/
def copy_index (primary : IndexInfo) (secondary : Option IndexInfo) :
    List (List (String × IndexTok) × Fields) :=
  let p : IndexInfo := { primary with ns := none }
  let s : Option IndexInfo := secondary.map (fun i => { i with ns := none })
  if s = some p then []
  else if valid_index_key p.key then [(p.key, p.options)] else []

/-- A document, as the copy tool moves it. -/
abbrev MDoc := Fields

/-- The buffering loop of `copy_documents_in_batches`: append each streamed
document to the buffer and flush it as one batch when it reaches the batch
size, then flush the non-empty remainder.  Each emitted batch is one
`batch_insert` (one `insert_many` call). -/
def copyBatchesAux (batchSize : Nat) (buffer : List MDoc) : List MDoc → List (List MDoc)
  | [] => if buffer.isEmpty then [] else [buffer]
  | d :: rest =>
      let buf := buffer ++ [d]
      if batchSize ≤ buf.length then buf :: copyBatchesAux batchSize [] rest
      else copyBatchesAux batchSize buf rest

/-- `copy_documents_in_batches` over a source stream of documents: the list
of insert-call payloads, in order. -/
def copy_documents_in_batches (batchSize : Nat) (docs : List MDoc) : List (List MDoc) :=
  copyBatchesAux batchSize [] docs

/-- The module-level `BATCH_SIZE` configuration variable. -/
def BATCH_SIZE : Nat := 1000

/-- The collation amendment of `copy_collection_options`: when the options
carry a collation without a `locale` sub-option, the collation is popped
(with a warning); otherwise the options pass through unchanged.  A
non-mapping collation value would raise a `TypeError` in the source and is
left unchanged here (unreachable for well-formed options). -/
def amendedOptions (options : Fields) : Fields :=
  match flookup "collation" options with
  | some (.vdict c) => if fHasKey "locale" c then options else ferase "collation" options
  | _ => options

/-- A store-level write the copy tool issues against the target database. -/
inductive TOp where
  | createCollection (name : String) (options : Fields) : TOp
  | insertMany (name : String) (docs : List MDoc) : TOp
  | createIndex (name : String) (key : List (String × IndexTok)) (options : Fields) : TOp
deriving DecidableEq

/-- The collection a write addresses. -/
def TOp.collName : TOp → String
  | .createCollection n _ => n
  | .insertMany n _ => n
  | .createIndex n _ _ => n

/-- `copy_collection_options(collection_name)`: read the source options,
amend the collation, and issue one creation call with the amended options
when they are non-empty.  When they are empty the source only logs
"Creating collection ... without additional options." and issues no
creation call at all. -/
def copy_collection_options_ops (name : String) (options : Fields) : List TOp :=
  let opts := amendedOptions options
  if fisEmpty opts then [] else [.createCollection name opts]

/-- `copy_capped_collection_if_not_exists(collection_name)`: when the source
options carry a truthy `capped` flag, create the target collection capped
with the source's `size` and `max` (a capped collection always has `size`;
`max` defaults to null). -/
def copy_capped_collection_ops (name : String) (options : Fields) : List TOp :=
  if truthy (flookup "capped" options) then
    [.createCollection name
      (.fcons "capped" (.vbool true)
        (.fcons "size" ((flookup "size" options).getD .vnull)
          (.fcons "max" ((flookup "max" options).getD .vnull) .fnil)))]
  else []

/-- `copy_documents_in_batches` as issued insert calls for one collection. -/
def copy_documents_ops (name : String) (docs : List MDoc) : List TOp :=
  (copy_documents_in_batches BATCH_SIZE docs).map (.insertMany name ·)

/-- One collection of the target database: the options it was created with,
its documents in insertion order, and its indexes keyed by name.  The
built-in `_id_` index the store would add implicitly is not modelled. -/
structure TColl where
  createdOptions : Fields
  docs : List MDoc
  indexes : List (String × IndexInfo)
deriving DecidableEq

/-- The target database: collections keyed by name (`list_collection_names`
is the key list). -/
abbrev TargetDB := List (String × TColl)

/-- Python `name in db.list_collection_names()` on the target. -/
def hasCollName (n : String) (st : TargetDB) : Bool :=
  (alookup n st).isSome

/-- The name pymongo generates for an index created without an explicit
name option (`create_index` is called with the key list only, so the
target-side name is derived from the keys, not the source index's name). -/
def genIndexName (key : List (String × IndexTok)) : String :=
  String.intercalate "_" (key.map (fun p =>
    p.1 ++ "_" ++ (match p.2 with | .num n => toString n | .str s => s)))

/-- Update a named collection in place, or add it when absent (a plain
insert or index creation on a nonexistent collection creates it). -/
def updateColl (n : String) (f : TColl → TColl) (ifAbsent : TColl) (st : TargetDB) : TargetDB :=
  if hasCollName n st then st.map (fun p => if p.1 = n then (p.1, f p.2) else p)
  else st ++ [(n, ifAbsent)]

/-- Effect of one store-level write on the target database. -/
def applyOp (st : TargetDB) : TOp → TargetDB
  | .createCollection n opts =>
      if hasCollName n st then st else st ++ [(n, ⟨opts, [], []⟩)]
  | .insertMany n ds =>
      updateColl n (fun c => { c with docs := c.docs ++ ds }) ⟨.fnil, ds, []⟩ st
  | .createIndex n key opts =>
      updateColl n
        (fun c => { c with indexes := c.indexes ++ [(genIndexName key, ⟨key, none, opts⟩)] })
        ⟨.fnil, [], [(genIndexName key, ⟨key, none, opts⟩)]⟩ st

/-- Effect of a sequence of writes, first to last. -/
def applyOps (st : TargetDB) (ops : List TOp) : TargetDB :=
  ops.foldl applyOp st

/-- The indexes `index_information()` reports for a target collection
(empty for a collection that does not exist). -/
def targetIndexes (n : String) (st : TargetDB) : List (String × IndexInfo) :=
  match alookup n st with
  | some c => c.indexes
  | none => []

/-- `copy_indexes_if_not_exists(collection_name)`: snapshot the target's
index information once, then run the per-index body for every source
index against the same-named target index. -/
def copy_indexes_ops (collName : String) (srcIndexes : List (String × IndexInfo))
    (st : TargetDB) : List TOp :=
  let snd := targetIndexes collName st
  (srcIndexes.map (fun p =>
    (copy_index p.2 (alookup p.1 snd)).map (fun r => TOp.createIndex collName r.1 r.2))).flatten

/-- One source collection as the copy tool reads it: its options dict, its
document stream (in source order) and its `index_information()`. -/
structure SourceColl where
  options : Fields
  docs : List MDoc
  indexes : List (String × IndexInfo)
deriving DecidableEq

/-- `copy_collection_if_not_exists(collection_name)`: skip a name that
already exists on the target; otherwise create it capped (documents are not
copied in that branch) or replicate options and copy the documents in
batches, and in both branches reconcile the indexes afterwards.  Returns
the new target state and the writes issued, in order. -/
def copy_collection_if_not_exists (name : String) (c : SourceColl) (st : TargetDB) :
    TargetDB × List TOp :=
  if hasCollName name st then (st, [])
  else
    let ops1 :=
      if truthy (flookup "capped" c.options) then copy_capped_collection_ops name c.options
      else copy_collection_options_ops name c.options ++ copy_documents_ops name c.docs
    let st1 := applyOps st ops1
    let ops2 := copy_indexes_ops name c.indexes st1
    (applyOps st1 ops2, ops1 ++ ops2)

/-- `copy_all_collections_concurrently()`: one `copy_collection_if_not_exists`
task per source collection name.  The worker pool's tasks touch pairwise
distinct collection names, so the run is modelled as the sequential fold;
the accumulated list is every write issued against the target. -/
def copy_all_collections (src : List (String × SourceColl)) (st : TargetDB) :
    TargetDB × List TOp :=
  src.foldl (fun acc p =>
    let r := copy_collection_if_not_exists p.1 p.2 acc.1
    (r.1, acc.2 ++ r.2)) (st, [])

/-! ## Change Feed Applier (`is_replica_set`, `start_db_change_stream`) -/

/-- Outcome of the probe command `replSetGetStatus` against the source:
a returned status document, an `OperationFailure` (the only exception
`is_replica_set` catches), or any other raised error (connection failure,
timeout, ...). -/
inductive ProbeResult where
  | ok (status : Fields) : ProbeResult
  | opFailure (msg : String) : ProbeResult
  | otherFailure (msg : String) : ProbeResult
deriving DecidableEq

/-- Whether the probe failed (did not return a status document). -/
def ProbeResult.isFailure : ProbeResult → Bool
  | .ok _ => false
  | .opFailure _ => true
  | .otherFailure _ => true

/-- `is_replica_set(mongo_client)`: `"ok" in status and status["ok"] == 1.0`
on a returned status; an `OperationFailure` is caught, logged as a warning
and turned into `False`; any other exception propagates to the caller
(modelled as `Except.error`). -/
def is_replica_set : ProbeResult → Except String Bool
  | .ok status =>
      .ok (match flookup "ok" status with
           | some v => pyEq v (.vint 1)
           | none => false)
  | .opFailure _ => .ok false
  | .otherFailure msg => .error msg

/-- Observable outcome of entering `start_db_change_stream`: whether the
event stream was opened (the Streaming state was entered), whether a reason
for staying unsubscribed was logged, and whether an exception escaped the
function uncaught. -/
structure StreamStart where
  streaming : Bool
  reasonLogged : Bool
  raised : Bool
deriving DecidableEq

/-- The subscription decision of `start_db_change_stream()`: open the
database change stream only when `is_replica_set` returns `True`; when it
returns `False` the "not part of a replica set" reason is logged (for an
`OperationFailure` the probe also logs its warning); an exception raised by
the probe escapes, with nothing logged by this function. -/
def start_db_change_stream (probe : ProbeResult) : StreamStart :=
  match is_replica_set probe with
  | .error _ => ⟨false, false, true⟩
  | .ok true => ⟨true, false, false⟩
  | .ok false => ⟨false, true, false⟩

/-! ## Change-event translation (update events) -/

/-- The update document `start_db_change_stream` builds for an update event:
a `$set` part from `updatedFields` and a `$unset` part from
`removedFields`, each present only when its source mapping is non-empty. -/
structure UpdateQuery where
  setPart : Option Fields
  unsetPart : Option (List String)
deriving DecidableEq

/-- Construction of `update_query` from the event's `updateDescription`. -/
def build_update_query (updatedFields : Fields) (removedFields : List String) : UpdateQuery :=
  ⟨if fisEmpty updatedFields then none else some updatedFields,
   if removedFields.isEmpty then none else some removedFields⟩

/-- Store semantics of the `$set` operator: set each named field to its
value, first to last. -/
def applySet : Fields → Fields → Fields
  | .fnil, doc => doc
  | .fcons k v t, doc => applySet t (fsetField doc k v)

/-- Store semantics of the `$unset` operator: remove each named field. -/
def applyUnset : List String → Fields → Fields
  | [], doc => doc
  | k :: t, doc => applyUnset t (ferase k doc)

/-- `update_one({"_id": id}, update_query)` applied to the matched target
document: the store applies the `$set` part and the `$unset` part (they
address disjoint fields, so their order is immaterial). -/
def apply_update_query (q : UpdateQuery) (doc : Fields) : Fields :=
  let d1 := match q.setPart with
            | some s => applySet s doc
            | none => doc
  match q.unsetPart with
  | some u => applyUnset u d1
  | none => d1

/-- The per-view collation handling of `copy_views_if_not_exists`: the
view's collation option (`{}` when absent) is discarded when it is
non-empty yet lacks a `locale`, and the view is then created with the
collation exactly when the remaining value is truthy.  The result is the
collation argument of the issued creation call (`none` = omitted). -/
def copy_view_collation (view_collation : Fields) : Option Fields :=
  let vc : Option Fields :=
    if !(fHasKey "locale" view_collation) && !(fisEmpty view_collation) then none
    else some view_collation
  match vc with
  | some c => if fisEmpty c then none else some c
  | none => none

/-- A source collection whose replication issues no target writes at all
when the target lacks the name: not capped, amended options empty, no
documents, and every index rejected by the key-validity gate. -/
def source_no_op (c : SourceColl) : Bool :=
  !truthy (flookup "capped" c.options) && fisEmpty (amendedOptions c.options) &&
  c.docs.isEmpty && c.indexes.all (fun p => (copy_index p.2 none).isEmpty)

/-! ## Generic lemmas -/

theorem fisEmpty_iff (d : Fields) : fisEmpty d = true ↔ d = .fnil := by
  cases d <;> simp [fisEmpty]

/-! ## C2: batch completeness of the bulk document copy -/

theorem copyBatchesAux_flatten (B : Nat) :
    ∀ (docs buffer : List MDoc), (copyBatchesAux B buffer docs).flatten = buffer ++ docs := by
  intro docs
  induction docs with
  | nil =>
      intro buffer
      by_cases h : buffer.isEmpty
      · simp [copyBatchesAux, h, List.isEmpty_iff.mp h]
      · simp [copyBatchesAux, h]
  | cons d rest ih =>
      intro buffer
      by_cases h : B ≤ buffer.length + 1
      · simp [copyBatchesAux, h, ih]
      · simp [copyBatchesAux, h, ih]

theorem copyBatchesAux_length (B : Nat) (hB : 0 < B) :
    ∀ (docs buffer : List MDoc), buffer.length < B →
      (copyBatchesAux B buffer docs).length = (buffer.length + docs.length + B - 1) / B := by
  intro docs
  induction docs with
  | nil =>
      intro buffer hb
      cases buffer with
      | nil =>
          have h0 : (B - 1) / B = 0 := Nat.div_eq_of_lt (by omega)
          simp [copyBatchesAux, h0]
      | cons x xs =>
          have hb2 : xs.length + 1 < B := by simpa using hb
          have h2 : (xs.length + B) / B = 1 := by
            rw [Nat.add_div_right _ hB, Nat.div_eq_of_lt (by omega)]
          simp [copyBatchesAux, h2]
  | cons d rest ih =>
      intro buffer hb
      by_cases h : B ≤ buffer.length + 1
      · have e1 : (copyBatchesAux B buffer (d :: rest)).length
            = (copyBatchesAux B [] rest).length + 1 := by
          simp [copyBatchesAux, h]
        have e3 := ih [] (by simpa using hB)
        simp only [List.length_nil, Nat.zero_add] at e3
        rw [e1, e3]
        have e2 : buffer.length + (d :: rest).length + B - 1 = rest.length + B - 1 + B := by
          simp only [List.length_cons]
          omega
        rw [e2, Nat.add_div_right _ hB]
      · have hlt : (buffer ++ [d]).length < B := by
          simp only [List.length_append, List.length_cons, List.length_nil]
          omega
        have e1 : (copyBatchesAux B buffer (d :: rest)).length
            = (copyBatchesAux B (buffer ++ [d]) rest).length := by
          simp [copyBatchesAux, h]
        rw [e1, ih _ hlt]
        congr 1
        simp only [List.length_append, List.length_cons, List.length_nil]
        omega

/-- C2: for every source collection of N documents and batch size B ≥ 1,
the bulk document copy issues exactly ⌈N/B⌉ (that is, (N + B - 1) / B)
insert calls, the concatenation of their payloads is the full source
document sequence in source-stream order, and N = 0 produces zero insert
calls. -/
theorem batch_completeness (B : Nat) (docs : List MDoc) (hB : 0 < B) :
    (copy_documents_in_batches B docs).length = (docs.length + B - 1) / B ∧
    (copy_documents_in_batches B docs).flatten = docs ∧
    copy_documents_in_batches B [] = [] := by
  refine ⟨?_, ?_, rfl⟩
  · have h := copyBatchesAux_length B hB docs [] (by simpa using hB)
    simpa [copy_documents_in_batches] using h
  · simpa [copy_documents_in_batches] using copyBatchesAux_flatten B docs []

/-- Witness for C2 at batch size 3 on a 7-document stream: 3 insert calls
whose concatenation is the stream. -/
theorem batch_completeness_witness :
    0 < 3 ∧
    ((copy_documents_in_batches 3 (List.replicate 7 Fields.fnil)).length =
        ((List.replicate 7 Fields.fnil).length + 3 - 1) / 3 ∧
      (copy_documents_in_batches 3 (List.replicate 7 Fields.fnil)).flatten =
        List.replicate 7 Fields.fnil ∧
      copy_documents_in_batches 3 [] = []) :=
  ⟨by decide, batch_completeness 3 (List.replicate 7 Fields.fnil) (by decide)⟩

/-! ## C3: index validity gate -/

/-- C3: an index whose key specification carries any direction/type
specifier outside the allowed set is never created on the target, whatever
its other options and whatever the target-side counterpart; an index with
only valid specifiers and no same-named target counterpart is created with
the source's exact key specification (order preserved) and its remaining
options verbatim. -/
theorem index_validity_gate (p : IndexInfo) (s : Option IndexInfo) :
    ((∃ e ∈ p.key, e.2 ∉ allowed_index_tokens) → copy_index p s = []) ∧
    ((∀ e ∈ p.key, e.2 ∈ allowed_index_tokens) → copy_index p none = [(p.key, p.options)]) := by
  constructor
  · rintro ⟨e, he, hbad⟩
    have hv : valid_index_key p.key = false := by
      apply Bool.eq_false_iff.mpr
      intro hall
      rw [valid_index_key, List.all_eq_true] at hall
      exact hbad (by simpa using hall e he)
    simp [copy_index, hv]
  · intro hall
    have hv : valid_index_key p.key = true := by
      rw [valid_index_key, List.all_eq_true]
      intro e he
      simpa using hall e he
    simp [copy_index, hv]

/-- Witness for C3: a geoHaystack-keyed index is never created; a valid
two-field index with no target counterpart is created with its key order. -/
theorem index_validity_gate_witness :
    copy_index ⟨[("loc", .str "geoHaystack")], some "training.places", .fnil⟩ none = [] ∧
    copy_index ⟨[("a", .num 1), ("b", .num (-1))], some "training.users", .fnil⟩ none =
      [([("a", .num 1), ("b", .num (-1))], .fnil)] :=
  ⟨(index_validity_gate ⟨[("loc", .str "geoHaystack")], some "training.places", .fnil⟩ none).1
      ⟨("loc", .str "geoHaystack"), by decide, by decide⟩,
   (index_validity_gate ⟨[("a", .num 1), ("b", .num (-1))], some "training.users", .fnil⟩ none).2
      (by decide)⟩

/-! ## C1: creation calls of the metadata replicator -/

/-- C1 (code-bug evaluation): on a collection whose source options are
empty, `copy_collection_options` issues no creation call against the
target at all (the source only logs "Creating collection ... without
additional options."), while non-empty amended options yield exactly one
creation call; the claim requires exactly one creation call per invocation
in both cases. -/
theorem metadata_replicator_creation_calls :
    copy_collection_options_ops "plain_collection" .fnil = [] ∧
    copy_collection_options_ops "validated_collection"
        (.fcons "validator" (.vdict .fnil) .fnil) =
      [.createCollection "validated_collection" (.fcons "validator" (.vdict .fnil) .fnil)] := by
  exact ⟨by decide, by decide⟩

/-! ## C7: change-feed capability probe failures -/

/-- C7 counterexample: a probe failure that is not an OperationFailure
(here a connection failure) leaves the applier unsubscribed but logs no
reason at all — the exception escapes uncaught — contradicting the claim
that the reason is logged for every kind of probe failure. -/
theorem change_feed_probe_cex :
    (ProbeResult.otherFailure "connection refused").isFailure = true ∧
    (start_db_change_stream (.otherFailure "connection refused")).streaming = false ∧
    (start_db_change_stream (.otherFailure "connection refused")).reasonLogged = false ∧
    (start_db_change_stream (.otherFailure "connection refused")).raised = true :=
  ⟨rfl, rfl, rfl, rfl⟩

/-- C7 (amended): every probe failure leaves the Change Feed Applier in the
Unsubscribed state (no event stream is opened); an OperationFailure — the
only exception `is_replica_set` catches — is treated as "not capable" with
the reason logged, while any other probe failure propagates uncaught and
nothing is logged. -/
theorem change_feed_probe_amended (p : ProbeResult) (h : p.isFailure = true) :
    (start_db_change_stream p).streaming = false ∧
    (∀ m, p = .opFailure m →
      (start_db_change_stream p).reasonLogged = true ∧
      (start_db_change_stream p).raised = false) ∧
    (∀ m, p = .otherFailure m →
      (start_db_change_stream p).raised = true ∧
      (start_db_change_stream p).reasonLogged = false) := by
  cases p with
  | ok st => simp [ProbeResult.isFailure] at h
  | opFailure m =>
      refine ⟨rfl, fun _ _ => ⟨rfl, rfl⟩, fun m2 hx => ?_⟩
      cases hx
  | otherFailure m =>
      refine ⟨rfl, fun m2 hx => ?_, fun _ _ => ⟨rfl, rfl⟩⟩
      cases hx

/-- Witness for C7 at a concrete OperationFailure probe outcome. -/
theorem change_feed_probe_amended_witness :
    (ProbeResult.opFailure "not running with --replSet").isFailure = true ∧
    ((start_db_change_stream (.opFailure "not running with --replSet")).streaming = false ∧
     (∀ m, ProbeResult.opFailure "not running with --replSet" = .opFailure m →
       (start_db_change_stream (.opFailure "not running with --replSet")).reasonLogged = true ∧
       (start_db_change_stream (.opFailure "not running with --replSet")).raised = false) ∧
     (∀ m, ProbeResult.opFailure "not running with --replSet" = .otherFailure m →
       (start_db_change_stream (.opFailure "not running with --replSet")).raised = true ∧
       (start_db_change_stream (.opFailure "not running with --replSet")).reasonLogged = false)) :=
  ⟨rfl, change_feed_probe_amended (.opFailure "not running with --replSet") rfl⟩

/-! ## C8: collation locale gate -/

theorem flookup_fcons (k k2 : String) (v : Value) (t : Fields) :
    flookup k (.fcons k2 v t) = if k2 = k then some v else flookup k t := rfl

theorem flookup_ferase_self (k : String) : (d : Fields) → flookup k (ferase k d) = none
  | .fnil => rfl
  | .fcons k2 v t => by
      by_cases h : k2 = k
      · simp [ferase, h, flookup_ferase_self k t]
      · simp [ferase, h, flookup_fcons, flookup_ferase_self k t]

theorem flookup_ferase_ne (k m : String) (h : m ≠ k) :
    (d : Fields) → flookup m (ferase k d) = flookup m d
  | .fnil => rfl
  | .fcons k2 v t => by
      by_cases h2 : k2 = k
      · have hm : ¬ k2 = m := by
          intro e
          exact h (by rw [← e, h2])
        simp [ferase, h2, flookup_fcons, hm, Ne.symm h, flookup_ferase_ne k m h t]
      · by_cases h3 : k2 = m
        · simp [ferase, h2, flookup_fcons, h3, h]
        · simp [ferase, h2, flookup_fcons, h3, flookup_ferase_ne k m h t]

/-- C8: a collation lacking a locale sub-option is never part of the target
creation options — for collections it is dropped before the creation call,
for views it is not passed to the view creation — while a collation that
has a locale is propagated unchanged on both paths. -/
theorem collation_locale_gate (name : String) (options : Fields) (c : Fields)
    (hc : flookup "collation" options = some (.vdict c)) :
    (fHasKey "locale" c = false →
      ∀ op ∈ copy_collection_options_ops name options, ∀ n opts,
        op = TOp.createCollection n opts → flookup "collation" opts = none) ∧
    (fHasKey "locale" c = true →
      copy_collection_options_ops name options = [.createCollection name options]) ∧
    (∀ vc : Fields, fHasKey "locale" vc = false → copy_view_collation vc = none) ∧
    (∀ vc : Fields, fHasKey "locale" vc = true → copy_view_collation vc = some vc) := by
  refine ⟨?_, ?_, ?_, ?_⟩
  · intro hloc op hop n opts he
    have hamend : amendedOptions options = ferase "collation" options := by
      simp [amendedOptions, hc, hloc]
    rw [copy_collection_options_ops, hamend] at hop
    by_cases hemp : fisEmpty (ferase "collation" options) = true
    · simp [hemp] at hop
    · simp [Bool.not_eq_true] at hemp
      simp [hemp] at hop
      rw [he] at hop
      injection hop with h1 h2
      rw [h2]
      exact flookup_ferase_self _ _
  · intro hloc
    have hamend : amendedOptions options = options := by
      simp [amendedOptions, hc, hloc]
    have hne : fisEmpty options = false := by
      cases options with
      | fnil => simp [flookup] at hc
      | fcons k v t => rfl
    simp [copy_collection_options_ops, hamend, hne]
  · intro vc hloc
    have hn : flookup "locale" vc = none := by
      cases hx : flookup "locale" vc with
      | none => rfl
      | some w => rw [fHasKey, hx] at hloc; simp at hloc
    cases vc with
    | fnil => rfl
    | fcons k v t => simp [copy_view_collation, fHasKey, hn, fisEmpty]
  · intro vc hloc
    have hs : (flookup "locale" vc).isSome = true := hloc
    have hne : fisEmpty vc = false := by
      cases vc with
      | fnil => rw [fHasKey] at hloc; simp [flookup] at hloc
      | fcons k v t => rfl
    simp [copy_view_collation, fHasKey, hs, hne]

/-- Witness for C8 at a collation that has a locale (propagated unchanged)
and, through the view conjuncts, one that lacks it (dropped). -/
theorem collation_locale_gate_witness :
    flookup "collation" (.fcons "collation" (.vdict (.fcons "locale" (.vstr "en") .fnil)) .fnil)
      = some (.vdict (.fcons "locale" (.vstr "en") .fnil)) ∧
    ((fHasKey "locale" (.fcons "locale" (.vstr "en") .fnil) = false →
      ∀ op ∈ copy_collection_options_ops "localized"
          (.fcons "collation" (.vdict (.fcons "locale" (.vstr "en") .fnil)) .fnil), ∀ n opts,
        op = TOp.createCollection n opts → flookup "collation" opts = none) ∧
     (fHasKey "locale" (.fcons "locale" (.vstr "en") .fnil) = true →
      copy_collection_options_ops "localized"
          (.fcons "collation" (.vdict (.fcons "locale" (.vstr "en") .fnil)) .fnil) =
        [.createCollection "localized"
          (.fcons "collation" (.vdict (.fcons "locale" (.vstr "en") .fnil)) .fnil)]) ∧
     (∀ vc : Fields, fHasKey "locale" vc = false → copy_view_collation vc = none) ∧
     (∀ vc : Fields, fHasKey "locale" vc = true → copy_view_collation vc = some vc)) :=
  ⟨by decide,
   collation_locale_gate "localized"
     (.fcons "collation" (.vdict (.fcons "locale" (.vstr "en") .fnil)) .fnil)
     (.fcons "locale" (.vstr "en") .fnil) (by decide)⟩

/-! ## C5: translated update events -/

theorem flookup_fsetField_self (k : String) (v : Value) : (d : Fields) →
    flookup k (fsetField d k v) = some v
  | .fnil => by simp [fsetField, flookup_fcons]
  | .fcons k2 w t => by
      by_cases h : k2 = k
      · simp [fsetField, h, flookup_fcons]
      · simp [fsetField, h, flookup_fcons, flookup_fsetField_self k v t]

theorem flookup_fsetField_ne (k m : String) (v : Value) (h : m ≠ k) : (d : Fields) →
    flookup m (fsetField d k v) = flookup m d
  | .fnil => by simp [fsetField, flookup_fcons, flookup, Ne.symm h]
  | .fcons k2 w t => by
      by_cases h2 : k2 = k
      · simp [fsetField, h2, flookup_fcons, Ne.symm h]
      · simp [fsetField, h2, flookup_fcons, flookup_fsetField_ne k m v h t]

theorem fHasKey_false_entries (k : String) : (d : Fields) → fHasKey k d = false →
    ∀ p ∈ fentries d, p.1 ≠ k
  | .fcons k2 v t, h, p, hp => by
      rw [fHasKey, flookup_fcons] at h
      by_cases h2 : k2 = k
      · simp [h2] at h
      · rcases List.mem_cons.mp (by simpa [fentries] using hp) with he | ht
        · rw [he]
          exact h2
        · exact fHasKey_false_entries k t (by rw [fHasKey]; simpa [h2] using h) p ht
  | .fnil, _, p, hp => by simp [fentries] at hp

theorem applySet_flookup_absent (k : String) : (s : Fields) → (doc : Fields) →
    (∀ p ∈ fentries s, p.1 ≠ k) → flookup k (applySet s doc) = flookup k doc
  | .fnil, doc, _ => rfl
  | .fcons k2 v t, doc, h => by
      have hk2 : k2 ≠ k := h (k2, v) (by simp [fentries])
      rw [applySet, applySet_flookup_absent k t _ (fun p hp => h p (by simp [fentries, hp]))]
      exact flookup_fsetField_ne k2 k v (Ne.symm hk2) doc

theorem applySet_flookup_mem (k : String) (v : Value) : (s : Fields) → (doc : Fields) →
    fkeysNodup s = true → (k, v) ∈ fentries s → flookup k (applySet s doc) = some v
  | .fcons k2 w t, doc, hnd, hmem => by
      rw [fkeysNodup, Bool.and_eq_true, Bool.not_eq_true'] at hnd
      rw [applySet]
      rcases (by simpa [fentries] using hmem :
          (k = k2 ∧ v = w) ∨ (k, v) ∈ fentries t) with ⟨e1, e2⟩ | ht
      · subst e1
        subst e2
        rw [applySet_flookup_absent k t _ (fHasKey_false_entries k t hnd.1)]
        exact flookup_fsetField_self k v doc
      · exact applySet_flookup_mem k v t _ hnd.2 ht
  | .fnil, _, _, hmem => by simp [fentries] at hmem

theorem applyUnset_preserves_none (k : String) : (u : List String) → (doc : Fields) →
    flookup k doc = none → flookup k (applyUnset u doc) = none
  | [], _, h => h
  | k2 :: t, doc, h => applyUnset_preserves_none k t _ (by
      by_cases h2 : k2 = k
      · rw [h2]
        exact flookup_ferase_self k doc
      · rw [flookup_ferase_ne k2 k (fun e => h2 e.symm) doc]
        exact h)

theorem applyUnset_flookup_mem (k : String) : (u : List String) → (doc : Fields) →
    k ∈ u → flookup k (applyUnset u doc) = none
  | k2 :: t, doc, hmem => by
      rw [applyUnset]
      rcases List.mem_cons.mp hmem with he | ht
      · rw [← he]
        exact applyUnset_preserves_none k t _ (flookup_ferase_self k doc)
      · exact applyUnset_flookup_mem k t _ ht
  | [], _, hmem => by simp at hmem

theorem applyUnset_flookup_not_mem (k : String) : (u : List String) → (doc : Fields) →
    k ∉ u → flookup k (applyUnset u doc) = flookup k doc
  | [], _, _ => rfl
  | k2 :: t, doc, h => by
      rw [applyUnset, applyUnset_flookup_not_mem k t _ (fun hx => h (List.mem_cons_of_mem _ hx)),
        flookup_ferase_ne k2 k (fun e => h (e ▸ List.mem_cons_self _ _)) doc]

theorem apply_update_query_eq (uf : Fields) (rf : List String) (doc : Fields) :
    apply_update_query (build_update_query uf rf) doc = applyUnset rf (applySet uf doc) := by
  cases uf <;> cases rf <;>
    simp [apply_update_query, build_update_query, applySet, applyUnset, fisEmpty]

/-- C5: applying the translated update of an update Change Event to the
target document matched by the event's identifier sets every field named in
the set-fields mapping to its given value, removes every field named in the
unset-field set, and leaves every other field of the document unchanged
(the two parts of one update event address disjoint fields, and a set-fields
mapping, being a Python dict, has pairwise-distinct keys). -/
theorem change_event_update_applied (uf : Fields) (rf : List String) (doc : Fields)
    (hnd : fkeysNodup uf = true)
    (hdisj : ∀ p ∈ fentries uf, p.1 ∉ rf) :
    (∀ p ∈ fentries uf,
      flookup p.1 (apply_update_query (build_update_query uf rf) doc) = some p.2) ∧
    (∀ k ∈ rf,
      flookup k (apply_update_query (build_update_query uf rf) doc) = none) ∧
    (∀ k, fHasKey k uf = false → k ∉ rf →
      flookup k (apply_update_query (build_update_query uf rf) doc) = flookup k doc) := by
  rw [apply_update_query_eq]
  refine ⟨?_, ?_, ?_⟩
  · rintro ⟨k, v⟩ hp
    rw [applyUnset_flookup_not_mem k rf _ (hdisj (k, v) hp)]
    exact applySet_flookup_mem k v uf doc hnd hp
  · intro k hk
    exact applyUnset_flookup_mem k rf _ hk
  · intro k hk hr
    rw [applyUnset_flookup_not_mem k rf _ hr]
    exact applySet_flookup_absent k uf doc (fHasKey_false_entries k uf hk)

/-- Witness for C5 at the spec's example: set-fields `{status: "active"}`,
removed-fields `{temp_flag}`, against document 42. -/
theorem change_event_update_applied_witness :
    fkeysNodup (.fcons "status" (.vstr "active") .fnil) = true ∧
    (∀ p ∈ fentries (.fcons "status" (.vstr "active") .fnil), p.1 ∉ ["temp_flag"]) ∧
    ((∀ p ∈ fentries (.fcons "status" (.vstr "active") .fnil),
      flookup p.1 (apply_update_query
        (build_update_query (.fcons "status" (.vstr "active") .fnil) ["temp_flag"])
        (.fcons "_id" (.vint 42) (.fcons "status" (.vstr "pending")
          (.fcons "temp_flag" (.vbool true) (.fcons "note" (.vstr "x") .fnil))))) = some p.2) ∧
     (∀ k ∈ ["temp_flag"],
      flookup k (apply_update_query
        (build_update_query (.fcons "status" (.vstr "active") .fnil) ["temp_flag"])
        (.fcons "_id" (.vint 42) (.fcons "status" (.vstr "pending")
          (.fcons "temp_flag" (.vbool true) (.fcons "note" (.vstr "x") .fnil))))) = none) ∧
     (∀ k, fHasKey k (.fcons "status" (.vstr "active") .fnil) = false → k ∉ ["temp_flag"] →
      flookup k (apply_update_query
        (build_update_query (.fcons "status" (.vstr "active") .fnil) ["temp_flag"])
        (.fcons "_id" (.vint 42) (.fcons "status" (.vstr "pending")
          (.fcons "temp_flag" (.vbool true) (.fcons "note" (.vstr "x") .fnil))))) =
        flookup k (.fcons "_id" (.vint 42) (.fcons "status" (.vstr "pending")
          (.fcons "temp_flag" (.vbool true) (.fcons "note" (.vstr "x") .fnil)))))) :=
  ⟨by decide, by decide,
   change_event_update_applied (.fcons "status" (.vstr "active") .fnil) ["temp_flag"]
     (.fcons "_id" (.vint 42) (.fcons "status" (.vstr "pending")
       (.fcons "temp_flag" (.vbool true) (.fcons "note" (.vstr "x") .fnil))))
     (by decide) (by decide)⟩

/-! ## C6: null/NaN equivalence -/

theorem cfEntry_field (k : String) (v1 : Value) (doc2 : Fields) :
    ∀ d ∈ cfEntry k v1 doc2, d.field = k := by
  intro d hd
  rw [cfEntry] at hd
  cases hl : flookup k doc2 with
  | none =>
      rw [hl] at hd
      simp at hd
      rw [hd]
      rfl
  | some v2 =>
      rw [hl] at hd
      by_cases hn : (is_nan_or_none v1 && is_nan_or_none v2) = true
      · simp [hn] at hd
      · rw [Bool.not_eq_true] at hn
        simp only [hn, Bool.false_eq_true, if_false] at hd
        by_cases he : (compare_nested_fields v1 v2).isEmpty = true
        · simp [he] at hd
        · rw [Bool.not_eq_true] at he
          simp only [he, Bool.false_eq_true, if_false, List.mem_singleton] at hd
          rw [hd]
          rfl

theorem cfEntry_nan_skip (k : String) (v1 v2 : Value) (doc2 : Fields)
    (h2 : flookup k doc2 = some v2) (hn1 : is_nan_or_none v1 = true)
    (hn2 : is_nan_or_none v2 = true) : cfEntry k v1 doc2 = [] := by
  rw [cfEntry, h2]
  simp [hn1, hn2]

theorem cfOwn_field_ne (k : String) : (t : Fields) → (doc2 : Fields) →
    (∀ p ∈ fentries t, p.1 ≠ k) → ∀ d ∈ cfOwn t doc2, d.field ≠ k
  | .fnil, doc2, _, d, hd => by simp [cfOwn] at hd
  | .fcons k2 w t, doc2, h, d, hd => by
      rw [cfOwn] at hd
      rcases List.mem_append.mp hd with hb | ht
      · rw [cfEntry_field k2 w doc2 d hb]
        exact h (k2, w) (by simp [fentries])
      · exact cfOwn_field_ne k t doc2 (fun p hp => h p (by simp [fentries, hp])) d ht

theorem cfOwn_nan_skip (k : String) (v1 v2 : Value) (doc2 : Fields)
    (h2 : flookup k doc2 = some v2) (hn1 : is_nan_or_none v1 = true)
    (hn2 : is_nan_or_none v2 = true) :
    (t : Fields) → flookup k t = some v1 → fkeysNodup t = true →
    ∀ d ∈ cfOwn t doc2, d.field ≠ k
  | .fnil, h1, _, d, hd => by simp [cfOwn] at hd
  | .fcons k2 w t, h1, hnd, d, hd => by
      rw [fkeysNodup, Bool.and_eq_true, Bool.not_eq_true'] at hnd
      rw [flookup_fcons] at h1
      rw [cfOwn] at hd
      rcases List.mem_append.mp hd with hb | ht
      · by_cases he : k2 = k
        · rw [if_pos he] at h1
          injection h1 with hw
          subst he
          subst hw
          rw [cfEntry_nan_skip k2 w v2 doc2 h2 hn1 hn2] at hb
          simp at hb
        · rw [cfEntry_field k2 w doc2 d hb]
          exact he
      · by_cases he : k2 = k
        · subst he
          exact cfOwn_field_ne k2 t doc2 (fHasKey_false_entries k2 t hnd.1) d ht
        · rw [if_neg he] at h1
          exact cfOwn_nan_skip k v1 v2 doc2 h2 hn1 hn2 t h1 hnd.2 d ht

theorem cfSecond_mem (doc1 : Fields) : (t : Fields) → ∀ d ∈ cfSecond doc1 t,
    ∃ k2, d = Diff.missingInDoc1 k2 ∧ fHasKey k2 doc1 = false
  | .fnil, d, hd => by simp [cfSecond] at hd
  | .fcons k2 v t, d, hd => by
      rw [cfSecond] at hd
      rcases List.mem_append.mp hd with h1 | h2
      · by_cases hk : fHasKey k2 doc1 = true
        · simp [hk] at h1
        · rw [Bool.not_eq_true] at hk
          simp only [hk, Bool.false_eq_true, if_false, List.mem_singleton] at h1
          exact ⟨k2, h1, hk⟩
      · exact cfSecond_mem doc1 t d h2

/-- C6 counterexample: the null/NaN skip exists only at the top level of
`compare_fields`; an embedded-document pair whose shared field is NaN on
both sides is reported as a value difference, so a document pair compared
by the engine can carry a both-sides-NaN field that yields a finding. -/
theorem null_nan_equivalence_cex :
    compare_nested_fields (.vdict (.fcons "b" .vnan .fnil)) (.vdict (.fcons "b" .vnan .fnil)) =
      [NDiff.valuesDiffer .vnan .vnan] ∧
    compare_fields (.fcons "x" (.vdict (.fcons "b" .vnan .fnil)) .fnil)
        (.fcons "x" (.vdict (.fcons "b" .vnan .fnil)) .fnil) =
      [Diff.fieldDiff "x" [NDiff.valuesDiffer .vnan .vnan]] := by
  exact ⟨by decide, by decide⟩

/-- C6 (amended): at the top level of a document-pair comparison, a field
whose value is null-or-NaN on both sides yields no difference finding for
that field (null against NaN is treated as equal there); the
embedded-document comparison applies no such check — a nested null/null
pair still compares equal, but a nested NaN/NaN pair is reported as a
value difference. -/
theorem null_nan_equivalence_amended (doc1 doc2 : Fields) (k : String) (v1 v2 : Value)
    (h1 : flookup k doc1 = some v1) (h2 : flookup k doc2 = some v2)
    (hn1 : is_nan_or_none v1 = true) (hn2 : is_nan_or_none v2 = true)
    (hnd : fkeysNodup doc1 = true) :
    (∀ d ∈ compare_fields doc1 doc2, d.field ≠ k) ∧
    compare_nested_fields .vnull .vnull = [] ∧
    compare_nested_fields .vnan .vnan = [NDiff.valuesDiffer .vnan .vnan] := by
  refine ⟨?_, rfl, rfl⟩
  intro d hd
  rw [compare_fields] at hd
  rcases List.mem_append.mp hd with ho | hs
  · exact cfOwn_nan_skip k v1 v2 doc2 h2 hn1 hn2 doc1 h1 hnd d ho
  · obtain ⟨k2, he, hk⟩ := cfSecond_mem doc1 doc2 d hs
    rw [he]
    intro e
    rw [show (Diff.missingInDoc1 k2).field = k2 from rfl] at e
    rw [e, fHasKey, h1] at hk
    simp at hk

/-- Witness for C6 on a concrete document pair whose field `a` is null on
one side and NaN on the other. -/
theorem null_nan_equivalence_amended_witness :
    flookup "a" (.fcons "a" .vnull (.fcons "z" (.vint 1) .fnil)) = some .vnull ∧
    flookup "a" (.fcons "a" .vnan (.fcons "w" (.vint 2) .fnil)) = some .vnan ∧
    is_nan_or_none .vnull = true ∧
    is_nan_or_none .vnan = true ∧
    fkeysNodup (.fcons "a" .vnull (.fcons "z" (.vint 1) .fnil)) = true ∧
    ((∀ d ∈ compare_fields (.fcons "a" .vnull (.fcons "z" (.vint 1) .fnil))
        (.fcons "a" .vnan (.fcons "w" (.vint 2) .fnil)), d.field ≠ "a") ∧
     compare_nested_fields .vnull .vnull = [] ∧
     compare_nested_fields .vnan .vnan = [NDiff.valuesDiffer .vnan .vnan]) :=
  ⟨by decide, by decide, rfl, rfl, by decide,
   null_nan_equivalence_amended (.fcons "a" .vnull (.fcons "z" (.vint 1) .fnil))
     (.fcons "a" .vnan (.fcons "w" (.vint 2) .fnil)) "a" .vnull .vnan
     (by decide) (by decide) rfl rfl (by decide)⟩

/-! ## C10: the diff is reflexive on NaN-free documents -/

theorem fHasKey_of_mem : (d : Fields) → ∀ p ∈ fentries d, fHasKey p.1 d = true
  | .fcons k v t, p, hp => by
      rw [fHasKey, flookup_fcons]
      by_cases he : k = p.1
      · simp [he]
      · rcases (by simpa [fentries] using hp : p = (k, v) ∨ p ∈ fentries t) with he2 | ht
        · rw [he2] at he
          simp at he
        · rw [if_neg he]
          exact fHasKey_of_mem t p ht
  | .fnil, p, hp => by simp [fentries] at hp

theorem flookup_of_mem_nodup : (d : Fields) → fkeysNodup d = true →
    ∀ k v, (k, v) ∈ fentries d → flookup k d = some v
  | .fcons k2 w t, hnd, k, v, hm => by
      rw [fkeysNodup, Bool.and_eq_true, Bool.not_eq_true'] at hnd
      rw [flookup_fcons]
      rcases (by simpa [fentries] using hm :
          (k = k2 ∧ v = w) ∨ (k, v) ∈ fentries t) with ⟨e1, e2⟩ | ht
      · rw [if_pos e1.symm, e2]
      · by_cases he : k2 = k
        · exfalso
          have hmem := fHasKey_of_mem t (k, v) ht
          rw [← he] at hmem
          rw [hnd.1] at hmem
          exact Bool.false_ne_true hmem
        · rw [if_neg he]
          exact flookup_of_mem_nodup t hnd.2 k v ht
  | .fnil, _, k, v, hm => by simp [fentries] at hm

theorem nanFreeFields_mem : (d : Fields) → nanFreeFields d = true →
    ∀ p ∈ fentries d, nanFree p.2 = true
  | .fcons k v t, h, p, hp => by
      rw [nanFreeFields, Bool.and_eq_true] at h
      rcases (by simpa [fentries] using hp : p = (k, v) ∨ p ∈ fentries t) with he | ht
      · rw [he]
        exact h.1
      · exact nanFreeFields_mem t h.2 p ht
  | .fnil, _, p, hp => by simp [fentries] at hp

theorem nodupKeysFields_mem : (d : Fields) → nodupKeysFields d = true →
    ∀ p ∈ fentries d, nodupKeys p.2 = true
  | .fcons k v t, h, p, hp => by
      rw [nodupKeysFields, Bool.and_eq_true, Bool.and_eq_true] at h
      rcases (by simpa [fentries] using hp : p = (k, v) ∨ p ∈ fentries t) with he | ht
      · rw [he]
        exact h.1.2
      · exact nodupKeysFields_mem t h.2 p ht
  | .fnil, _, p, hp => by simp [fentries] at hp

theorem nodupKeysFields_fkeysNodup : (d : Fields) → nodupKeysFields d = true →
    fkeysNodup d = true
  | .fnil, _ => rfl
  | .fcons k v t, h => by
      rw [nodupKeysFields, Bool.and_eq_true, Bool.and_eq_true] at h
      rw [fkeysNodup, Bool.and_eq_true]
      exact ⟨h.1.1, nodupKeysFields_fkeysNodup t h.2⟩

theorem cnfSecondMissing_self (d : Fields) : (t : Fields) →
    (∀ p ∈ fentries t, fHasKey p.1 d = true) → cnfSecondMissing d t = []
  | .fnil, _ => rfl
  | .fcons k v t, h => by
      have hk := h (k, v) (by simp [fentries])
      rw [cnfSecondMissing,
        cnfSecondMissing_self d t (fun p hp => h p (by simp [fentries, hp]))]
      simp [hk]

mutual
theorem cnf_self : (v : Value) → nanFree v = true → nodupKeys v = true →
    compare_nested_fields v v = []
  | .vnull, _, _ => rfl
  | .vnan, h, _ => by rw [nanFree] at h; exact absurd h Bool.false_ne_true
  | .vbool b, _, _ => by
      have hp : pyEq (.vbool b) (.vbool b) = true := by
        rw [show pyEq (Value.vbool b) (Value.vbool b) = (b == b) from rfl]
        exact beq_self_eq_true b
      rw [show compare_nested_fields (Value.vbool b) (Value.vbool b) =
        (if pyEq (Value.vbool b) (Value.vbool b) then []
         else [NDiff.valuesDiffer (Value.vbool b) (Value.vbool b)]) from rfl, hp]
      rfl
  | .vint n, _, _ => by
      have hp : pyEq (.vint n) (.vint n) = true := by
        rw [show pyEq (Value.vint n) (Value.vint n) = (n == n) from rfl]
        exact beq_self_eq_true n
      rw [show compare_nested_fields (Value.vint n) (Value.vint n) =
        (if pyEq (Value.vint n) (Value.vint n) then []
         else [NDiff.valuesDiffer (Value.vint n) (Value.vint n)]) from rfl, hp]
      rfl
  | .vstr s, _, _ => by
      have hp : pyEq (.vstr s) (.vstr s) = true := by
        rw [show pyEq (Value.vstr s) (Value.vstr s) = (s == s) from rfl]
        exact beq_self_eq_true s
      rw [show compare_nested_fields (Value.vstr s) (Value.vstr s) =
        (if pyEq (Value.vstr s) (Value.vstr s) then []
         else [NDiff.valuesDiffer (Value.vstr s) (Value.vstr s)]) from rfl, hp]
      rfl
  | .vdict d, h1, h2 => by
      rw [nanFree] at h1
      rw [nodupKeys] at h2
      rw [show compare_nested_fields (Value.vdict d) (Value.vdict d) =
        cnfOwn d d ++ cnfSecondMissing d d from rfl]
      rw [cnfOwn_self d d (fun p hp =>
        ⟨flookup_of_mem_nodup d (nodupKeysFields_fkeysNodup d h2) p.1 p.2 (by simpa using hp),
         nanFreeFields_mem d h1 p hp, nodupKeysFields_mem d h2 p hp⟩)]
      rw [cnfSecondMissing_self d d (fun p hp => fHasKey_of_mem d p hp)]
      rfl
  | .varr l, h1, h2 => by
      rw [nanFree] at h1
      rw [nodupKeys] at h2
      rw [show compare_nested_fields (Value.varr l) (Value.varr l) =
        (if ilen l ≠ ilen l then [NDiff.arrayLen (ilen l) (ilen l)] else cnfItems l l) from rfl]
      rw [if_neg (fun h => h rfl)]
      exact cnfItems_self l h1 h2

theorem cnfOwn_self : (t d : Fields) →
    (∀ p ∈ fentries t,
      flookup p.1 d = some p.2 ∧ nanFree p.2 = true ∧ nodupKeys p.2 = true) →
    cnfOwn t d = []
  | .fnil, _, _ => rfl
  | .fcons k x t, d, h => by
      obtain ⟨hl, hf, hn⟩ := h (k, x) (by simp [fentries])
      rw [cnfOwn, hl]
      show compare_nested_fields x x ++ cnfOwn t d = []
      rw [cnf_self x hf hn,
        cnfOwn_self t d (fun p hp => h p (by simp [fentries, hp]))]
      rfl

theorem cnfItems_self : (l : Items) → nanFreeItems l = true → nodupKeysItems l = true →
    cnfItems l l = []
  | .inil, _, _ => rfl
  | .icons a t, h1, h2 => by
      rw [nanFreeItems, Bool.and_eq_true] at h1
      rw [nodupKeysItems, Bool.and_eq_true] at h2
      rw [cnfItems, cnf_self a h1.1 h2.1, cnfItems_self t h1.2 h2.2]
      rfl
end

theorem cfEntry_self (k : String) (v : Value) (d : Fields) (hl : flookup k d = some v)
    (hc : compare_nested_fields v v = []) : cfEntry k v d = [] := by
  rw [cfEntry, hl]
  by_cases hn : (is_nan_or_none v && is_nan_or_none v) = true
  · simp [hn, hc]
  · rw [Bool.not_eq_true] at hn
    simp [hn, hc]

theorem cfSecond_self (d : Fields) : (t : Fields) →
    (∀ p ∈ fentries t, fHasKey p.1 d = true) → cfSecond d t = []
  | .fnil, _ => rfl
  | .fcons k v t, h => by
      have hk := h (k, v) (by simp [fentries])
      rw [cfSecond, cfSecond_self d t (fun p hp => h p (by simp [fentries, hp]))]
      simp [hk]

theorem cfOwn_self_refl (d : Fields) : (t : Fields) →
    (∀ p ∈ fentries t,
      flookup p.1 d = some p.2 ∧ nanFree p.2 = true ∧ nodupKeys p.2 = true) →
    cfOwn t d = []
  | .fnil, _ => rfl
  | .fcons k v t, h => by
      obtain ⟨hl, hf, hn⟩ := h (k, v) (by simp [fentries])
      rw [cfOwn, cfEntry_self k v d hl (cnf_self v hf hn),
        cfOwn_self_refl d t (fun p hp => h p (by simp [fentries, hp]))]
      rfl

/-- C10: comparing a NaN-free document with itself yields no differences
(a document, being a Python dict, has pairwise-distinct keys at every
nesting depth, which the wider embedding states as a hypothesis). -/
theorem diff_reflexive_nanfree (d : Fields)
    (h1 : nanFreeFields d = true) (h2 : nodupKeysFields d = true) :
    compare_fields d d = [] := by
  rw [compare_fields]
  rw [cfOwn_self_refl d d (fun p hp =>
    ⟨flookup_of_mem_nodup d (nodupKeysFields_fkeysNodup d h2) p.1 p.2 (by simpa using hp),
     nanFreeFields_mem d h1 p hp, nodupKeysFields_mem d h2 p hp⟩)]
  rw [cfSecond_self d d (fun p hp => fHasKey_of_mem d p hp)]
  rfl

/-- Witness for C10 on a nested NaN-free document. -/
theorem diff_reflexive_nanfree_witness :
    nanFreeFields (.fcons "a" (.vint 1) (.fcons "b" (.vdict (.fcons "c" .vnull .fnil))
      (.fcons "e" (.varr (.icons (.vint 2) .inil)) .fnil))) = true ∧
    nodupKeysFields (.fcons "a" (.vint 1) (.fcons "b" (.vdict (.fcons "c" .vnull .fnil))
      (.fcons "e" (.varr (.icons (.vint 2) .inil)) .fnil))) = true ∧
    compare_fields
      (.fcons "a" (.vint 1) (.fcons "b" (.vdict (.fcons "c" .vnull .fnil))
        (.fcons "e" (.varr (.icons (.vint 2) .inil)) .fnil)))
      (.fcons "a" (.vint 1) (.fcons "b" (.vdict (.fcons "c" .vnull .fnil))
        (.fcons "e" (.varr (.icons (.vint 2) .inil)) .fnil))) = [] :=
  ⟨by decide, by decide,
   diff_reflexive_nanfree
     (.fcons "a" (.vint 1) (.fcons "b" (.vdict (.fcons "c" .vnull .fnil))
       (.fcons "e" (.varr (.icons (.vint 2) .inil)) .fnil))) (by decide) (by decide)⟩

/-! ## C9: duplicate detection -/

theorem mem_dedupVals (v : Value) (l : List Value) : v ∈ dedupVals l ↔ v ∈ l := by
  induction l with
  | nil => simp [dedupVals]
  | cons w t ih =>
      rw [dedupVals]
      by_cases h : w ∈ t
      · rw [if_pos h, ih]
        constructor
        · exact fun hx => List.mem_cons_of_mem _ hx
        · intro hx
          rcases List.mem_cons.mp hx with he | ht
          · rw [he]
            exact h
          · exact ht
      · rw [if_neg h]
        constructor
        · intro hx
          rcases List.mem_cons.mp hx with he | ht
          · rw [he]
            exact List.mem_cons_self _ _
          · exact List.mem_cons_of_mem _ (ih.mp ht)
        · intro hx
          rcases List.mem_cons.mp hx with he | ht
          · rw [he]
            exact List.mem_cons_self _ _
          · exact List.mem_cons_of_mem _ (ih.mpr ht)

theorem countVal_cons (v w : Value) (t : List Value) :
    countVal v (w :: t) = (if w = v then 1 else 0) + countVal v t := by
  rw [countVal, countVal]
  by_cases h : w = v
  · simp [List.filter_cons, h, Nat.add_comm]
  · simp [List.filter_cons, h]

theorem countVal_pos (v : Value) (l : List Value) : 0 < countVal v l ↔ v ∈ l := by
  induction l with
  | nil => simp [countVal]
  | cons w t ih =>
      rw [countVal_cons]
      by_cases h : w = v
      · simp [h, List.mem_cons]
      · have h2 : ¬ v = w := fun e => h e.symm
        simp [h, h2, List.mem_cons, ih]

theorem check_for_duplicates_mem (docs : List Fields) (f : String) (v : Value) (c : Nat) :
    (v, c) ∈ check_for_duplicates docs f ↔
      (1 < c ∧ countVal v (groupKeys docs f) = c) := by
  simp only [check_for_duplicates]
  constructor
  · intro h
    rw [List.mem_filter] at h
    obtain ⟨hm, hp⟩ := h
    rw [List.mem_map] at hm
    obtain ⟨w, hw, he⟩ := hm
    cases he
    simp only [decide_eq_true_eq] at hp
    exact ⟨hp, rfl⟩
  · rintro ⟨h1, h2⟩
    rw [List.mem_filter]
    refine ⟨?_, by simpa using h1⟩
    rw [List.mem_map]
    refine ⟨v, ?_, by rw [h2]⟩
    rw [mem_dedupVals, ← countVal_pos]
    omega

/-- C9 counterexample: a collection name present on both stores whose
document counts differ is skipped by `continue` before the duplicate check
runs, so no duplicate check is issued for it on either store (here the
second store's collection even contains a duplicated identifier that goes
unreported). -/
theorem duplicate_check_cex :
    ("c" ∈ ([("c", [Fields.fcons "_id" (Value.vint 1) .fnil])] : Database).map Prod.fst) ∧
    ("c" ∈ ([("c", [Fields.fcons "_id" (Value.vint 1) .fnil,
                    Fields.fcons "_id" (Value.vint 1) .fnil])] : Database).map Prod.fst) ∧
    (∀ a ∈ compare_all_collections
        [("c", [Fields.fcons "_id" (Value.vint 1) .fnil])]
        [("c", [Fields.fcons "_id" (Value.vint 1) .fnil,
                Fields.fcons "_id" (Value.vint 1) .fnil])],
      a.isDupCheck = false) := by decide

/-- C9 (amended): for every collection name present on both stores whose
document counts match, the validation pass runs the duplicate check on both
collections; the check groups by the given unique field (default `_id`) and
reports exactly the values occurring more than once, with their counts —
in particular three documents sharing `code = "A"` beside one with
`code = "B"` yield the single group (`"A"`, 3). -/
theorem duplicate_check_amended (db1 db2 : Database) (n : String)
    (h1 : n ∈ db1.map Prod.fst) (h2 : n ∈ db2.map Prod.fst)
    (hc : (getColl n db1).length = (getColl n db2).length) :
    ValAction.dupCheck 1 n (check_for_duplicates (getColl n db1) "_id")
      ∈ compare_all_collections db1 db2 ∧
    ValAction.dupCheck 2 n (check_for_duplicates (getColl n db2) "_id")
      ∈ compare_all_collections db1 db2 ∧
    (∀ (docs : List Fields) (f : String) (v : Value) (c : Nat),
      ((v, c) ∈ check_for_duplicates docs f) ↔
        (1 < c ∧ countVal v (groupKeys docs f) = c)) ∧
    check_for_duplicates
      [.fcons "_id" (.vint 1) (.fcons "code" (.vstr "A") .fnil),
       .fcons "_id" (.vint 2) (.fcons "code" (.vstr "A") .fnil),
       .fcons "_id" (.vint 3) (.fcons "code" (.vstr "A") .fnil),
       .fcons "_id" (.vint 4) (.fcons "code" (.vstr "B") .fnil)] "code" =
      [(.vstr "A", 3)] := by
  have hcommon : n ∈ (db1.map Prod.fst).filter (fun m => (db2.map Prod.fst).contains m) := by
    rw [List.mem_filter]
    exact ⟨h1, by simpa using h2⟩
  refine ⟨?_, ?_, check_for_duplicates_mem, by decide⟩
  · simp only [compare_all_collections]
    refine List.mem_flatten.mpr ⟨_, List.mem_map_of_mem _ hcommon, ?_⟩
    rw [if_neg (by rw [hc]; exact fun hx => hx rfl)]
    simp
  · simp only [compare_all_collections]
    refine List.mem_flatten.mpr ⟨_, List.mem_map_of_mem _ hcommon, ?_⟩
    rw [if_neg (by rw [hc]; exact fun hx => hx rfl)]
    simp

/-- Witness for C9 on two stores holding the example collection with equal
counts. -/
theorem duplicate_check_amended_witness :
    ("c" ∈ ([("c", [Fields.fcons "_id" (Value.vint 1) .fnil])] : Database).map Prod.fst) ∧
    ("c" ∈ ([("c", [Fields.fcons "_id" (Value.vint 9) .fnil])] : Database).map Prod.fst) ∧
    (getColl "c" [("c", [Fields.fcons "_id" (Value.vint 1) .fnil])]).length =
      (getColl "c" [("c", [Fields.fcons "_id" (Value.vint 9) .fnil])]).length ∧
    (ValAction.dupCheck 1 "c"
        (check_for_duplicates (getColl "c" [("c", [Fields.fcons "_id" (Value.vint 1) .fnil])]) "_id")
      ∈ compare_all_collections [("c", [Fields.fcons "_id" (Value.vint 1) .fnil])]
          [("c", [Fields.fcons "_id" (Value.vint 9) .fnil])] ∧
     ValAction.dupCheck 2 "c"
        (check_for_duplicates (getColl "c" [("c", [Fields.fcons "_id" (Value.vint 9) .fnil])]) "_id")
      ∈ compare_all_collections [("c", [Fields.fcons "_id" (Value.vint 1) .fnil])]
          [("c", [Fields.fcons "_id" (Value.vint 9) .fnil])] ∧
     (∀ (docs : List Fields) (f : String) (v : Value) (c : Nat),
       ((v, c) ∈ check_for_duplicates docs f) ↔
         (1 < c ∧ countVal v (groupKeys docs f) = c)) ∧
     check_for_duplicates
       [.fcons "_id" (.vint 1) (.fcons "code" (.vstr "A") .fnil),
        .fcons "_id" (.vint 2) (.fcons "code" (.vstr "A") .fnil),
        .fcons "_id" (.vint 3) (.fcons "code" (.vstr "A") .fnil),
        .fcons "_id" (.vint 4) (.fcons "code" (.vstr "B") .fnil)] "code" =
       [(.vstr "A", 3)]) :=
  ⟨by decide, by decide, by decide,
   duplicate_check_amended [("c", [Fields.fcons "_id" (Value.vint 1) .fnil])]
     [("c", [Fields.fcons "_id" (Value.vint 9) .fnil])] "c"
     (by decide) (by decide) (by decide)⟩

/-! ## C4: skip-on-exists and idempotent bulk copy -/

theorem alookup_append_single {β : Type} (m n : String) (x : β) :
    (st : List (String × β)) →
    alookup m (st ++ [(n, x)]) =
      (match alookup m st with
       | some v => some v
       | none => if n = m then some x else none)
  | [] => by simp [alookup]
  | p :: t => by
      by_cases h : p.1 = m
      · simp [alookup, h]
      · simp [alookup, h, alookup_append_single m n x t]

theorem hasCollName_append_single (m n : String) (x : TColl) (st : TargetDB) :
    hasCollName m (st ++ [(n, x)]) = (hasCollName m st || decide (n = m)) := by
  rw [hasCollName, hasCollName, alookup_append_single]
  cases h : alookup m st with
  | some v => simp
  | none => by_cases h2 : n = m <;> simp [h2]

theorem alookup_map_update_isSome (m n : String) (f : TColl → TColl) :
    (st : TargetDB) →
    (alookup m (st.map (fun p => if p.1 = n then (p.1, f p.2) else p))).isSome =
      (alookup m st).isSome
  | [] => rfl
  | p :: t => by
      simp only [List.map_cons]
      by_cases h : p.1 = n
      · by_cases h3 : n = m
        · simp [alookup, h, h3]
        · simp [alookup, h, h3, alookup_map_update_isSome m n f t]
      · have h4 : ((if p.1 = n then (p.1, f p.2) else p) : String × TColl) = p := if_neg h
        rw [h4]
        by_cases h2 : p.1 = m
        · simp [alookup, h2]
        · simp [alookup, h2, alookup_map_update_isSome m n f t]

theorem hasCollName_updateColl (m n : String) (f : TColl → TColl) (ia : TColl)
    (st : TargetDB) :
    hasCollName m (updateColl n f ia st) = (hasCollName m st || decide (n = m)) := by
  rw [updateColl]
  by_cases h : hasCollName n st = true
  · rw [if_pos h, hasCollName, alookup_map_update_isSome]
    by_cases h2 : n = m
    · rw [← h2]
      simp [hasCollName] at h
      simp [hasCollName, h]
    · simp [hasCollName, h2]
  · rw [if_neg h]
    exact hasCollName_append_single m n ia st

theorem hasCollName_applyOp (m : String) (st : TargetDB) (op : TOp) :
    hasCollName m (applyOp st op) = (hasCollName m st || decide (op.collName = m)) := by
  cases op with
  | createCollection n opts =>
      rw [applyOp]
      by_cases h : hasCollName n st = true
      · rw [if_pos h]
        by_cases h2 : n = m
        · rw [← h2]
          simp [h, TOp.collName]
        · simp [TOp.collName, h2]
      · rw [if_neg h]
        exact hasCollName_append_single m n _ st
  | insertMany n ds =>
      rw [applyOp, hasCollName_updateColl]
      rfl
  | createIndex n key opts =>
      rw [applyOp, hasCollName_updateColl]
      rfl

theorem hasCollName_applyOps_mono (m : String) : (ops : List TOp) → (st : TargetDB) →
    hasCollName m st = true → hasCollName m (applyOps st ops) = true
  | [], _, h => h
  | op :: t, st, h =>
      hasCollName_applyOps_mono m t (applyOp st op)
        (by rw [hasCollName_applyOp, h]; rfl)

theorem hasCollName_applyOps_self (m : String) : (ops : List TOp) → (st : TargetDB) →
    ops ≠ [] → (∀ op ∈ ops, op.collName = m) → hasCollName m (applyOps st ops) = true
  | [], _, hne, _ => absurd rfl hne
  | op :: t, st, _, hall => by
      show hasCollName m (applyOps (applyOp st op) t) = true
      apply hasCollName_applyOps_mono
      rw [hasCollName_applyOp, hall op (List.mem_cons_self _ _)]
      simp

theorem copy_capped_collName (name : String) (options : Fields) :
    ∀ op ∈ copy_capped_collection_ops name options, op.collName = name := by
  intro op hop
  rw [copy_capped_collection_ops] at hop
  by_cases h : truthy (flookup "capped" options) = true
  · simp only [h, if_true, List.mem_singleton] at hop
    rw [hop]
    rfl
  · simp [h] at hop

theorem copy_options_collName (name : String) (options : Fields) :
    ∀ op ∈ copy_collection_options_ops name options, op.collName = name := by
  intro op hop
  simp only [copy_collection_options_ops] at hop
  by_cases h : fisEmpty (amendedOptions options) = true
  · simp [h] at hop
  · rw [Bool.not_eq_true] at h
    simp only [h, Bool.false_eq_true, if_false, List.mem_singleton] at hop
    rw [hop]
    rfl

theorem copy_documents_collName (name : String) (docs : List MDoc) :
    ∀ op ∈ copy_documents_ops name docs, op.collName = name := by
  intro op hop
  rw [copy_documents_ops] at hop
  obtain ⟨b, _, he⟩ := List.mem_map.mp hop
  rw [← he]
  rfl

theorem copy_indexes_collName (name : String) (idxs : List (String × IndexInfo))
    (st : TargetDB) : ∀ op ∈ copy_indexes_ops name idxs st, op.collName = name := by
  intro op hop
  simp only [copy_indexes_ops] at hop
  obtain ⟨l, hl, hop2⟩ := List.mem_flatten.mp hop
  obtain ⟨p, _, he⟩ := List.mem_map.mp hl
  rw [← he] at hop2
  obtain ⟨r, _, he2⟩ := List.mem_map.mp hop2
  rw [← he2]
  rfl

theorem copy_collection_skip (name : String) (c : SourceColl) (st : TargetDB)
    (h : hasCollName name st = true) :
    copy_collection_if_not_exists name c st = (st, []) := by
  rw [copy_collection_if_not_exists, if_pos h]

theorem copy_collection_mono (m name : String) (c : SourceColl) (st : TargetDB)
    (h : hasCollName m st = true) :
    hasCollName m (copy_collection_if_not_exists name c st).1 = true := by
  rw [copy_collection_if_not_exists]
  by_cases hex : hasCollName name st = true
  · rw [if_pos hex]
    exact h
  · rw [if_neg hex]
    exact hasCollName_applyOps_mono m _ _ (hasCollName_applyOps_mono m _ _ h)

theorem targetIndexes_absent (name : String) (st : TargetDB)
    (hex : hasCollName name st = false) : targetIndexes name st = [] := by
  rw [targetIndexes]
  cases hx : alookup name st with
  | none => rfl
  | some v =>
      rw [hasCollName, hx] at hex
      simp at hex

theorem copy_indexes_ops_nil (name : String) (st : TargetDB)
    (hsnd : targetIndexes name st = []) :
    (idxs : List (String × IndexInfo)) →
    (∀ p ∈ idxs, (copy_index p.2 none).isEmpty = true) →
    copy_indexes_ops name idxs st = []
  | [], _ => by simp [copy_indexes_ops]
  | p :: t, h => by
      have hh := h p (List.mem_cons_self _ _)
      rw [List.isEmpty_iff] at hh
      have ht := copy_indexes_ops_nil name st hsnd t (fun q hq => h q (List.mem_cons_of_mem _ hq))
      simp only [copy_indexes_ops, hsnd] at ht ⊢
      simp only [List.map_cons, List.flatten_cons]
      rw [show alookup p.1 ([] : List (String × IndexInfo)) = none from rfl, hh, ht]
      rfl

theorem copy_documents_ops_ne_nil (name : String) (docs : List MDoc) (h : docs ≠ []) :
    copy_documents_ops name docs ≠ [] := by
  rw [copy_documents_ops]
  intro hx
  rw [List.map_eq_nil_iff] at hx
  have hfl := copyBatchesAux_flatten BATCH_SIZE docs []
  rw [show copy_documents_in_batches BATCH_SIZE docs
      = copyBatchesAux BATCH_SIZE [] docs from rfl] at hx
  rw [hx] at hfl
  simp at hfl
  exact h hfl

theorem copy_collection_noop (name : String) (c : SourceColl) (st : TargetDB)
    (hex : hasCollName name st = false) (hno : source_no_op c = true) :
    copy_collection_if_not_exists name c st = (st, []) := by
  rw [source_no_op] at hno
  simp only [Bool.and_eq_true, Bool.not_eq_true'] at hno
  obtain ⟨⟨⟨hcap, hopts⟩, hdocs⟩, hidx⟩ := hno
  have hexp : ¬ hasCollName name st = true := by
    rw [hex]
    exact Bool.false_ne_true
  rw [copy_collection_if_not_exists, if_neg hexp]
  dsimp only
  have hops1 : (if truthy (flookup "capped" c.options)
      then copy_capped_collection_ops name c.options
      else copy_collection_options_ops name c.options ++ copy_documents_ops name c.docs) = [] := by
    rw [if_neg (by rw [hcap]; exact Bool.false_ne_true)]
    have hdn : c.docs = [] := List.isEmpty_iff.mp hdocs
    simp only [copy_collection_options_ops, hopts, if_true, hdn]
    rfl
  rw [hops1]
  show (applyOps st (copy_indexes_ops name c.indexes st),
    [] ++ copy_indexes_ops name c.indexes st) = (st, [])
  rw [copy_indexes_ops_nil name st (targetIndexes_absent name st hex) c.indexes
    (fun p hp => by simpa using List.all_eq_true.mp hidx p hp)]
  rfl

theorem copy_collection_creates (name : String) (c : SourceColl) (st : TargetDB)
    (hex : hasCollName name st = false) :
    source_no_op c = true ∨
      hasCollName name (copy_collection_if_not_exists name c st).1 = true := by
  have hexp : ¬ hasCollName name st = true := by
    rw [hex]
    exact Bool.false_ne_true
  rw [copy_collection_if_not_exists, if_neg hexp]
  dsimp only
  by_cases hcap : truthy (flookup "capped" c.options) = true
  · right
    rw [if_pos hcap]
    apply hasCollName_applyOps_mono
    apply hasCollName_applyOps_self name _ st ?_ (copy_capped_collName name c.options)
    rw [copy_capped_collection_ops, if_pos hcap]
    simp
  · rw [if_neg hcap]
    by_cases hopts : fisEmpty (amendedOptions c.options) = true
    · by_cases hdocs : c.docs.isEmpty = true
      · by_cases hidx : c.indexes.all (fun p => (copy_index p.2 none).isEmpty) = true
        · left
          rw [Bool.not_eq_true] at hcap
          rw [source_no_op, hcap, hopts, hdocs, hidx]
          rfl
        · right
          have hops1 : copy_collection_options_ops name c.options
              ++ copy_documents_ops name c.docs = [] := by
            have hdn : c.docs = [] := List.isEmpty_iff.mp hdocs
            simp only [copy_collection_options_ops, hopts, if_true, hdn]
            rfl
          rw [hops1]
          show hasCollName name (applyOps st (copy_indexes_ops name c.indexes st)) = true
          rw [List.all_eq_true] at hidx
          push_neg at hidx
          obtain ⟨p, hp, hne⟩ := hidx
          cases ce : copy_index p.2 none with
          | nil =>
              exfalso
              apply hne
              rw [ce]
              rfl
          | cons r rs =>
              have hsnd := targetIndexes_absent name st hex
              have hmem : TOp.createIndex name r.1 r.2 ∈ copy_indexes_ops name c.indexes st := by
                simp only [copy_indexes_ops, hsnd]
                apply List.mem_flatten.mpr
                refine ⟨(copy_index p.2 none).map (fun r => TOp.createIndex name r.1 r.2),
                  List.mem_map.mpr ⟨p, hp, rfl⟩, ?_⟩
                rw [ce]
                exact List.mem_cons_self _ _
              exact hasCollName_applyOps_self name _ st (List.ne_nil_of_mem hmem)
                (copy_indexes_collName name c.indexes st)
      · right
        apply hasCollName_applyOps_mono
        apply hasCollName_applyOps_self name _ st ?_ ?_
        · intro hz
          rcases List.append_eq_nil.mp hz with ⟨_, h2⟩
          exact copy_documents_ops_ne_nil name c.docs
            (fun e => hdocs (by rw [e]; rfl)) h2
        · intro op hop
          rcases List.mem_append.mp hop with h1 | h2
          · exact copy_options_collName name c.options op h1
          · exact copy_documents_collName name c.docs op h2
    · right
      apply hasCollName_applyOps_mono
      apply hasCollName_applyOps_self name _ st ?_ ?_
      · intro hz
        rcases List.append_eq_nil.mp hz with ⟨h1, _⟩
        rw [Bool.not_eq_true] at hopts
        simp only [copy_collection_options_ops, hopts, Bool.false_eq_true, if_false] at h1
        exact List.cons_ne_nil _ _ h1
      · intro op hop
        rcases List.mem_append.mp hop with h1 | h2
        · exact copy_options_collName name c.options op h1
        · exact copy_documents_collName name c.docs op h2

theorem run_fold_acc : (src : List (String × SourceColl)) → (st : TargetDB) →
    (acc : List TOp) →
    src.foldl (fun a p =>
      let r := copy_collection_if_not_exists p.1 p.2 a.1
      (r.1, a.2 ++ r.2)) (st, acc)
    = ((copy_all_collections src st).1, acc ++ (copy_all_collections src st).2)
  | [], st, acc => by simp [copy_all_collections]
  | q :: rest, st, acc => by
      simp only [copy_all_collections, List.foldl_cons, List.nil_append]
      rw [run_fold_acc rest, run_fold_acc rest]
      simp

theorem run_cons_fst (q : String × SourceColl) (rest : List (String × SourceColl))
    (st : TargetDB) :
    (copy_all_collections (q :: rest) st).1 =
      (copy_all_collections rest (copy_collection_if_not_exists q.1 q.2 st).1).1 := by
  simp only [copy_all_collections, List.foldl_cons, List.nil_append]
  rw [run_fold_acc, run_fold_acc]

theorem run_cons_snd (q : String × SourceColl) (rest : List (String × SourceColl))
    (st : TargetDB) :
    (copy_all_collections (q :: rest) st).2 =
      (copy_collection_if_not_exists q.1 q.2 st).2 ++
        (copy_all_collections rest (copy_collection_if_not_exists q.1 q.2 st).1).2 := by
  simp only [copy_all_collections, List.foldl_cons, List.nil_append]
  rw [run_fold_acc, run_fold_acc]
  simp

theorem run_mono (m : String) : (src : List (String × SourceColl)) → (st : TargetDB) →
    hasCollName m st = true → hasCollName m (copy_all_collections src st).1 = true
  | [], _, h => h
  | q :: rest, st, h => by
      rw [run_cons_fst]
      exact run_mono m rest _ (copy_collection_mono m q.1 q.2 st h)

theorem run_covers (src : List (String × SourceColl)) : (st : TargetDB) →
    ∀ p ∈ src,
      hasCollName p.1 (copy_all_collections src st).1 = true ∨ source_no_op p.2 = true := by
  induction src with
  | nil =>
      intro st p hp
      simp at hp
  | cons q rest ih =>
      intro st p hp
      rcases List.mem_cons.mp hp with he | ht
      · subst he
        rw [run_cons_fst]
        by_cases hex : hasCollName p.1 st = true
        · left
          apply run_mono p.1 rest _
          rw [copy_collection_skip p.1 p.2 st hex]
          exact hex
        · rcases copy_collection_creates p.1 p.2 st (Bool.eq_false_iff.mpr hex) with hno | hcr
          · right
            exact hno
          · left
            exact run_mono p.1 rest _ hcr
      · rw [run_cons_fst]
        exact ih _ p ht

theorem run_fixed (src : List (String × SourceColl)) : (st : TargetDB) →
    (∀ p ∈ src, hasCollName p.1 st = true ∨ source_no_op p.2 = true) →
    copy_all_collections src st = (st, []) := by
  induction src with
  | nil =>
      intro st _
      rfl
  | cons q rest ih =>
      intro st h
      have hq : copy_collection_if_not_exists q.1 q.2 st = (st, []) := by
        rcases h q (List.mem_cons_self _ _) with hx | hno
        · exact copy_collection_skip q.1 q.2 st hx
        · by_cases hex : hasCollName q.1 st = true
          · exact copy_collection_skip q.1 q.2 st hex
          · exact copy_collection_noop q.1 q.2 st (Bool.eq_false_iff.mpr hex) hno
      have h1 := run_cons_fst q rest st
      have h2 := run_cons_snd q rest st
      rw [hq] at h1 h2
      have hr := ih st (fun p hp => h p (List.mem_cons_of_mem _ hp))
      have hfst : (copy_all_collections (q :: rest) st).1 = st := by
        rw [h1, hr]
      have hsnd : (copy_all_collections (q :: rest) st).2 = [] := by
        rw [h2, hr]
        rfl
      exact Prod.ext hfst hsnd

/-- C4: a source collection whose name already exists on the target is
skipped entirely by the Bulk Copy Engine — no creation, no document
insert, no index creation, no state change — and consequently running the
engine a second time over an unchanged source issues no target writes at
all and leaves the target state after the second run identical to the
state after the first. -/
theorem bulk_copy_idempotent (src : List (String × SourceColl)) (st : TargetDB)
    (name : String) (c : SourceColl) (h : hasCollName name st = true) :
    copy_collection_if_not_exists name c st = (st, []) ∧
    copy_all_collections src (copy_all_collections src st).1 =
      ((copy_all_collections src st).1, []) :=
  ⟨copy_collection_skip name c st h,
   run_fixed src (copy_all_collections src st).1 (run_covers src st)⟩

/-- Witness for C4: a target already holding the collection name, and a
one-collection source carrying a document. -/
theorem bulk_copy_idempotent_witness :
    hasCollName "users" [("users", ⟨Fields.fnil, [], []⟩)] = true ∧
    (copy_collection_if_not_exists "users"
        ⟨Fields.fnil, [Fields.fcons "_id" (Value.vint 1) .fnil], []⟩
        [("users", ⟨Fields.fnil, [], []⟩)] = ([("users", ⟨Fields.fnil, [], []⟩)], []) ∧
     copy_all_collections
        [("users", ⟨Fields.fnil, [Fields.fcons "_id" (Value.vint 1) .fnil], []⟩)]
        (copy_all_collections
          [("users", ⟨Fields.fnil, [Fields.fcons "_id" (Value.vint 1) .fnil], []⟩)]
          [("users", ⟨Fields.fnil, [], []⟩)]).1 =
      ((copy_all_collections
          [("users", ⟨Fields.fnil, [Fields.fcons "_id" (Value.vint 1) .fnil], []⟩)]
          [("users", ⟨Fields.fnil, [], []⟩)]).1, [])) :=
  ⟨by decide,
   bulk_copy_idempotent
     [("users", ⟨Fields.fnil, [Fields.fcons "_id" (Value.vint 1) .fnil], []⟩)]
     [("users", ⟨Fields.fnil, [], []⟩)] "users"
     ⟨Fields.fnil, [Fields.fcons "_id" (Value.vint 1) .fnil], []⟩ (by decide)⟩
